import Mathlib

/-!
Shallow embedding of the rustdoc_seeker crate (src/seeker.rs and
src/parser.rs): the DocItem data model, its ordering, URL rendering, the
index builder of RustDoc::build, and the resolution passes of
FromStr for RustDoc (import chain-follow, module parent assignment,
generate_path with its memo cache, associated-item projection).
Strings stand for the crate's interned Atoms; byte-slice comparison of
UTF-8 names is modelled by lexicographic comparison of Unicode scalar
values, with which UTF-8 byte order agrees.
-/

namespace RustdocSeeker

/-- DocItemKind from src/seeker.rs (enum_number! invocation). -/
inductive DocItemKind where
  | Module
  | ExternCrate
  | Import
  | Struct
  | Enum
  | Function
  | Typedef
  | Static
  | Trait
  | TraitAlias
  | Impl
  | TyMethod
  | Method
  | StructField
  | Variant
  | Macro
  | AttributeMacro
  | DeriveMacro
  | Primitive
  | AssociatedType
  | Constant
  | AssociatedConst
  | Union
  | ForeignType
  | Keyword
  | Existential
deriving DecidableEq, Repr

/-- DocItemKind::as_str from src/seeker.rs. -/
def DocItemKind.as_str : DocItemKind → String
  | .Module => "module"
  | .ExternCrate => "externcrate"
  | .Import => "import"
  | .Struct => "struct"
  | .Enum => "enum"
  | .Function => "fn"
  | .Typedef => "type"
  | .Static => "static"
  | .Trait => "trait"
  | .TraitAlias => "traitalias"
  | .Impl => "impl"
  | .TyMethod => "tymethod"
  | .Method => "method"
  | .StructField => "structfield"
  | .Variant => "variant"
  | .Macro => "macro"
  | .AttributeMacro => "attr"
  | .DeriveMacro => "derive"
  | .Primitive => "primitive"
  | .AssociatedType => "associatedtype"
  | .Constant => "constant"
  | .AssociatedConst => "associatedconst"
  | .Union => "union"
  | .ForeignType => "foreigntype"
  | .Keyword => "keyword"
  | .Existential => "existential"

/-- TypeItem from src/seeker.rs: an item together with its kind. -/
structure TypeItem where
  kind : DocItemKind
  name : String
deriving DecidableEq, Repr

/-- Display for TypeItem: the "type dot name" rendering. -/
def TypeItem.display (t : TypeItem) : String :=
  t.kind.as_str ++ "." ++ t.name

/-- LinkType from src/seeker.rs. -/
inductive LinkType where
  | Index
  | Page
  | AssociateItem (page_item : TypeItem)
  | SubAssociateItem (page_item : TypeItem) (parent : TypeItem)
deriving DecidableEq, Repr

/-- DocItem from src/seeker.rs: a searchable item. -/
structure DocItem where
  name : TypeItem
  link_type : LinkType
  path : String
  desc : String
deriving DecidableEq, Repr

/-- DocItem::index_key: the search key is the name's bytes. -/
def DocItem.index_key (d : DocItem) : String :=
  d.name.name

/-- DocItem::parent_atom: the owning page's name, when there is one. -/
def DocItem.parent_atom (d : DocItem) : Option String :=
  match d.link_type with
  | .Index => none
  | .Page => none
  | .AssociateItem page_item => some page_item.name
  | .SubAssociateItem page_item _ => some page_item.name

/-- Comparison of two characters by Unicode scalar value. -/
def charCmp (a b : Char) : Ordering :=
  if a.toNat < b.toNat then .lt else if b.toNat < a.toNat then .gt else .eq

/-- Lexicographic comparison of character lists. -/
def charListCmp : List Char → List Char → Ordering
  | [], [] => .eq
  | [], _ :: _ => .lt
  | _ :: _, [] => .gt
  | a :: as, b :: bs =>
    match charCmp a b with
    | .lt => .lt
    | .gt => .gt
    | .eq => charListCmp as bs

/-- Comparison of two strings as Rust's Ord on str: lexicographic on the
UTF-8 bytes, equivalently on the scalar values. -/
def strCmp (a b : String) : Ordering :=
  charListCmp a.toList b.toList

/-- Comparison of two optional strings as Rust's Ord on Option:
None sorts before Some, two Some compare by content. -/
def optStrCmp (a b : Option String) : Ordering :=
  match a, b with
  | none, none => .eq
  | none, some _ => .lt
  | some _, none => .gt
  | some x, some y => strCmp x y

/-- Ord for DocItem from src/seeker.rs: index_key, then path, then
parent_atom. -/
def DocItem.cmp (a b : DocItem) : Ordering :=
  (strCmp a.index_key b.index_key).then
    ((strCmp a.path b.path).then (optStrCmp a.parent_atom b.parent_atom))

/-- PartialEq for DocItem from src/seeker.rs: name, link_type and path
(desc is ignored). -/
def DocItem.rustEq (a b : DocItem) : Bool :=
  a.name == b.name && a.link_type == b.link_type && a.path == b.path

/-- Insertion into a BTreeSet of DocItem, modelled on a list kept sorted
and deduplicated by DocItem::cmp: an element comparing Equal to a present
one is not inserted (BTreeSet::insert keeps the existing element). -/
def btreeInsert (s : List DocItem) (x : DocItem) : List DocItem :=
  match s with
  | [] => [x]
  | y :: ys =>
    match DocItem.cmp x y with
    | .lt => x :: y :: ys
    | .eq => y :: ys
    | .gt => y :: btreeInsert ys x

/-- Splitting a character list at each non-overlapping "::", leftmost
first: the semantics of Rust's str::split("::"). -/
def splitColons : List Char → List (List Char)
  | [] => [[]]
  | ':' :: ':' :: rest => [] :: splitColons rest
  | c :: rest =>
    match splitColons rest with
    | [] => [[c]]
    | s :: ss => (c :: s) :: ss

/-- The "::"-separated segments of a path string. -/
def pathSegments (path : String) : List String :=
  (splitColons path.toList).map (fun l => String.mk l)

/-- Concatenation of a list of strings, as a formatter writing each in
turn. -/
def concatAll : List String → String
  | [] => ""
  | s :: rest => s ++ concatAll rest

/-- DocItem::fmt_url from src/seeker.rs: each "::"-separated path segment
followed by a slash, then the page (and fragment) for the link type.
The Index arm writes the bare name (self.name.name), the other arms write
the TypeItem rendering. -/
def DocItem.fmt_url (d : DocItem) : String :=
  concatAll ((pathSegments d.path).map (fun part => part ++ "/")) ++
    match d.link_type with
    | .Index => d.name.name ++ "/index.html"
    | .Page => d.name.display ++ ".html"
    | .AssociateItem page_item => page_item.display ++ ".html#" ++ d.name.display
    | .SubAssociateItem page_item parent =>
        page_item.display ++ ".html#" ++ parent.display ++ "." ++ d.name.display

/-- Strings interleaved with "/" separators. -/
def joinSlash : List String → String
  | [] => ""
  | [s] => s
  | s :: rest => s ++ "/" ++ joinSlash rest

/-- The locator tail the spec's words prescribe for each anchor form; the
module arm carries the kind-dotted rendering. -/
def DocItem.specSuffix (d : DocItem) : String :=
  match d.link_type with
  | .Index => d.name.display ++ "/index.html"
  | .Page => d.name.display ++ ".html"
  | .AssociateItem page_item => page_item.display ++ ".html#" ++ d.name.display
  | .SubAssociateItem page_item parent =>
      page_item.display ++ ".html#" ++ parent.display ++ "." ++ d.name.display

/-- The locator built as the spec describes it: path segments joined by
slashes, then the anchor-dependent tail. -/
def DocItem.fmt_url_spec (d : DocItem) : String :=
  joinSlash (pathSegments d.path) ++ "/" ++ d.specSuffix

/-- The amended locator tail: the module arm carries the bare name with no
kind prefix, the other arms are unchanged. -/
def DocItem.amendedSuffix (d : DocItem) : String :=
  match d.link_type with
  | .Index => d.name.name ++ "/index.html"
  | .Page => d.name.display ++ ".html"
  | .AssociateItem page_item => page_item.display ++ ".html#" ++ d.name.display
  | .SubAssociateItem page_item parent =>
      page_item.display ++ ".html#" ++ parent.display ++ "." ++ d.name.display

/-- The locator of the amended claim: path segments joined by slashes,
then the amended tail. -/
def DocItem.fmt_url_amended (d : DocItem) : String :=
  joinSlash (pathSegments d.path) ++ "/" ++ d.amendedSuffix

/-! The index builder of RustDoc::build: chunk_by over the enumerated
sorted entries, packing each group's offsets into one 64-bit value. -/

/-- The scan of itertools::chunk_by as RustDoc::build uses it: `key` is
the current group's search key, `start` its first index, `i` the index of
the next element to examine. Each finished group yields the triple of its
key and its half-open index range. -/
def chunkGo : String → Nat → Nat → List DocItem → List (String × Nat × Nat)
  | key, start, i, [] => [(key, start, i)]
  | key, start, i, x :: xs =>
    if x.index_key = key then chunkGo key start (i + 1) xs
    else (key, start, i) :: chunkGo x.index_key i (i + 1) xs

/-- The groups of consecutive equal search keys, each with its half-open
range of indices into the entry array. -/
def buildRanges : List DocItem → List (String × Nat × Nat)
  | [] => []
  | x :: xs => chunkGo x.index_key 0 1 xs

/-- The packed 64-bit value: (start as u64) << 32, plus end. With both
offsets below 2^32 the sum stays below 2^64, so plain Nat arithmetic is
exact. -/
def packRange (start e : Nat) : Nat :=
  start * 2 ^ 32 + e

/-- Unpacking of the start offset: idx >> 32. -/
def unpackStart (v : Nat) : Nat :=
  v / 2 ^ 32

/-- Unpacking of the end offset: idx & 0xffffffff. -/
def unpackEnd (v : Nat) : Nat :=
  v % 2 ^ 32

/-- The key-to-value map of the fst index, as its sorted association
list: one entry per group, holding the packed range. -/
def buildIndex (items : List DocItem) : List (String × Nat) :=
  (buildRanges items).map (fun r => (r.1, packRange r.2.1 r.2.2))

/-- RustDoc::build from src/seeker.rs: the sorted entry list (the
BTreeSet's iteration order) is frozen into the backing array, the
assert requires the length to fit in u32, and the index maps each key to
its packed range. A failed assert is the none outcome. -/
def RustDoc.build (items : List DocItem) :
    Option (List DocItem × List (String × Nat)) :=
  if items.length ≤ 2 ^ 32 - 1 then some (items, buildIndex items) else none

/-! The resolution passes of FromStr for RustDoc (src/parser.rs), over
nodes as the parser's ItemNode augments them. -/

/-- Visibility. Modelled from the spec: the rustdoc_types module is
declared in src/lib.rs but its source file is not among the repository's
files; §6 of the spec gives an item's visibility as Public or
Restricted. -/
inductive Visibility where
  | Public
  | Restricted
deriving DecidableEq, Repr

/-- The kind-specific payloads the resolution passes inspect: a module's
child list, an import's alias name, optional target id and glob flag, an
impl's member list; every other payload is opaque to the claims here. -/
inductive ItemEnum where
  | Module (items : List String)
  | Import (alias_name : String) (target : Option String) (glob : Bool)
  | Impl (items : List String)
  | Leaf
deriving DecidableEq, Repr

/-- ItemTypeParent from src/parser.rs. -/
inductive ItemTypeParent where
  | Root
  | ModuleItem (path_parent : String)
  | AssociateItem (type_parent : String)
  | SubAssociateItem (type_parent : String) (associate_item : String)
deriving DecidableEq, Repr

/-- ItemNode from src/parser.rs, in its post-augmentation state: the raw
item's fields the passes read, the resolved display kind, the parent
slot and the back-reference list. The node's id is the key under which
the node map stores it. -/
structure ItemNode where
  id : String
  name : String
  visibility : Visibility
  inner : ItemEnum
  docs : String
  kind : DocItemKind
  parent : Option ItemTypeParent
  imported_by : List String
deriving DecidableEq, Repr

/-- The loaded node set, looked up by id. -/
def getNode (nodes : List ItemNode) (id : String) : Option ItemNode :=
  nodes.find? (fun n => n.id == id)

/-- The import chain-follow of FromStr for RustDoc: follow the target id
while the target is itself an import with a target. A missing node at
any hop skips the importer (some none); a terminal non-import (or else
an import with no target id) is the result. `fuel` bounds the hops the model
takes; the Rust loop has no such bound and no visited set. -/
def follow_import : Nat → List ItemNode → String → Option (Option ItemNode)
  | 0, _, _ => none
  | fuel + 1, nodes, importee_id =>
    match getNode nodes importee_id with
    | none => some none
    | some importee =>
      match importee.inner with
      | .Import _ (some next_id) _ => follow_import fuel nodes next_id
      | _ => some (some importee)

/-- One step of the back-reference pass: an import node whose chain
resolves to a terminal appends the pair (terminal id, importer id); a
skipped or non-import node appends nothing. -/
def resolveStep (fuel : Nat) (nodes : List ItemNode)
    (acc : Option (List (String × String))) (node : ItemNode) :
    Option (List (String × String)) :=
  match acc with
  | none => none
  | some prs =>
    match node.inner with
    | .Import _ (some importee_id) _ =>
      match follow_import fuel nodes importee_id with
      | none => none
      | some none => some prs
      | some (some importee) => some (prs ++ [(importee.id, node.id)])
    | _ => some prs

/-- The back-reference pass over every node. -/
def collectBackRefs (fuel : Nat) (nodes : List ItemNode) :
    Option (List (String × String)) :=
  nodes.foldl (resolveStep fuel nodes) (some [])

/-- The module arm of the parent-assignment pass: a module node stamps
ModuleItem on each child present in the node set, except when the module
is named "prelude", which stamps nothing. -/
def moduleChildAssignments (nodes : List ItemNode) (node : ItemNode) :
    List (String × ItemTypeParent) :=
  match node.inner with
  | .Module items =>
    if node.name ≠ "prelude" then
      (items.filter (fun cid => (getNode nodes cid).isSome)).map
        (fun cid => (cid, ItemTypeParent.ModuleItem node.id))
    else []
  | _ => []

/-- Leading "::" occurrences removed repeatedly: str::trim_start_matches
with the pattern "::". -/
def trimColons : List Char → List Char
  | ':' :: ':' :: rest => trimColons rest
  | l => l

/-- String form of the leading-"::" trim. -/
def stripLeadingColons (s : String) : String :=
  String.mk (trimColons s.toList)

/-- Whether a payload is a glob import. -/
def isGlobImport : ItemEnum → Bool
  | .Import _ _ glob => glob
  | _ => false

/-- Whether a payload is an import. -/
def isImportItem : ItemEnum → Bool
  | .Import _ _ _ => true
  | _ => false

/-- Whether a payload is an impl. -/
def isImplItem : ItemEnum → Bool
  | .Impl _ => true
  | _ => false

/-- The path memo cache of FromStr for RustDoc: an association list whose
most recent binding for a key shadows older ones, as FxHashMap::insert
replaces. -/
abbrev PathCache := List (String × List String)

/-- FxHashMap::get. -/
def cacheGet (c : PathCache) (k : String) : Option (List String) :=
  (List.find? (fun e => e.1 == k) c).map (fun e => e.2)

/-- FxHashMap::insert. -/
def cacheInsert (c : PathCache) (k : String) (v : List String) : PathCache :=
  (k, v) :: c

/-- generate_path from src/parser.rs, with explicit cache state and fuel
for the call stack (the Rust recursion has no depth bound). In order:
the cache is consulted only when omit_self is false; a restricted node
caches and returns the empty list (the insert is keyed by the node's
name, as the source writes it); tail is empty for omit_self or a
glob import; the parent branch contributes the parent's paths with tail
appended (ModuleItem), the bare trimmed tail (Root), or nothing; every
back-reference's paths are appended with the same omit_self flag; the
result is cached under the node's id only when omit_self is false. -/
def generate_path : Nat → List ItemNode → ItemNode → Bool → PathCache →
    Option (List String × PathCache)
  | 0, _, _, _, _ => none
  | fuel + 1, nodes, starting_node, omit_self, path_cache =>
    let cache_key := starting_node.id
    match cacheGet path_cache cache_key, omit_self with
    | some paths, false => some (paths, path_cache)
    | _, _ =>
      if starting_node.visibility = .Restricted then
        some ([], cacheInsert path_cache starting_node.name [])
      else
        let tail : String :=
          if omit_self || isGlobImport starting_node.inner then ""
          else "::" ++ starting_node.name
        let base : Option (List String × PathCache) :=
          match starting_node.parent with
          | some (.ModuleItem path_parent) =>
            match getNode nodes path_parent with
            | none => some ([], path_cache)
            | some par =>
              match generate_path fuel nodes par false path_cache with
              | none => none
              | some (pp, c) => some (pp.map (fun p => p ++ tail), c)
          | some .Root => some ([stripLeadingColons tail], path_cache)
          | _ => some ([], path_cache)
        match base with
        | none => none
        | some (paths0, c0) =>
          let step := fun (acc : Option (List String × PathCache)) (iid : String) =>
            match acc with
            | none => none
            | some (ps, c) =>
              match getNode nodes iid with
              | none => some (ps, c)
              | some inode =>
                match generate_path fuel nodes inode omit_self c with
                | none => none
                | some (ips, c') => some (ps ++ ips, c')
          match starting_node.imported_by.foldl step (some (paths0, c0)) with
          | none => none
          | some (paths, c) =>
            if !omit_self then some (paths, cacheInsert c cache_key paths)
            else some (paths, c)

/-- One owner's slice of append_associate_items from src/parser.rs: the
owner's paths with omit_self, each paired into a DocItem whose anchor
carries the original type parent's kind and the owner's name. -/
def ownerEntries (fuel : Nat) (nodes : List ItemNode) (owner : ItemNode)
    (name : TypeItem) (desc : String) (tpKind : DocItemKind)
    (gen_link_type : TypeItem → LinkType) (cache : PathCache) :
    Option (List DocItem × PathCache) :=
  match generate_path fuel nodes owner true cache with
  | none => none
  | some (ps, c) =>
    some (ps.map (fun path =>
      { name := name, link_type := gen_link_type ⟨tpKind, owner.name⟩,
        path := path, desc := desc }), c)

/-- The node filter of the entry-assembly pass: imports, impls and
restricted nodes yield no entries of their own. -/
def assemblyNodes (nodes : List ItemNode) : List ItemNode :=
  nodes.filter (fun node =>
    !(node.visibility == .Restricted) && !isImportItem node.inner
      && !isImplItem node.inner)

/-! Concrete inputs the counterexamples and witnesses evaluate on. -/

/-- A module entry: the std::vec landing page. -/
def mVec : DocItem :=
  { name := ⟨.Module, "vec"⟩, link_type := .Index, path := "std", desc := "" }

/-- A method entry for Vec::dedup. -/
def xIt : DocItem :=
  { name := ⟨.Method, "dedup"⟩, link_type := .AssociateItem ⟨.Struct, "Vec"⟩,
    path := "alloc::vec", desc := "" }

/-- A required-method entry with the same name, path and owning page as
xIt but a different kind. -/
def yIt : DocItem :=
  { name := ⟨.TyMethod, "dedup"⟩, link_type := .AssociateItem ⟨.Struct, "Vec"⟩,
    path := "alloc::vec", desc := "" }

/-- A second name for the C1 witness list. -/
def zIt : DocItem :=
  { name := ⟨.Struct, "Vec"⟩, link_type := .Page, path := "alloc::vec", desc := "" }

/-- An entry sharing xIt's search key with a later path. -/
def wIt : DocItem :=
  { name := ⟨.Method, "dedup"⟩, link_type := .Page, path := "zzz", desc := "" }

/-- A visibility-restricted node. -/
def rNode : ItemNode :=
  { id := "0:1", name := "hidden", visibility := .Restricted, inner := .Leaf,
    docs := "", kind := .Struct, parent := some .Root, imported_by := [] }

/-- An import node whose target is the import cycB: with cycB the two
targets form a cycle. -/
def cycA : ItemNode :=
  { id := "A", name := "a", visibility := .Public,
    inner := .Import "a" (some "B") false,
    docs := "", kind := .Import, parent := none, imported_by := [] }

/-- The other half of the import cycle. -/
def cycB : ItemNode :=
  { id := "B", name := "b", visibility := .Public,
    inner := .Import "b" (some "A") false,
    docs := "", kind := .Import, parent := none, imported_by := [] }

/-- An import node whose target id "X" is absent from the node set. -/
def impMiss : ItemNode :=
  { id := "I", name := "re", visibility := .Public,
    inner := .Import "re" (some "X") false,
    docs := "", kind := .Import, parent := none, imported_by := [] }

/-- A module named prelude with one child in the node set. -/
def preludeMod : ItemNode :=
  { id := "0:0", name := "prelude", visibility := .Public,
    inner := .Module ["0:2"],
    docs := "", kind := .Module, parent := some .Root, imported_by := [] }

/-- A child reachable only through preludeMod: its parent slot stays
unset and nothing re-exports it. -/
def orphanChild : ItemNode :=
  { id := "0:2", name := "Thing", visibility := .Public, inner := .Leaf,
    docs := "", kind := .Struct, parent := none, imported_by := [] }

/-- A restricted module with one child. -/
def restrictedMod : ItemNode :=
  { id := "0:3", name := "inner_mod", visibility := .Restricted,
    inner := .Module ["0:4"],
    docs := "", kind := .Module, parent := some .Root, imported_by := [] }

/-- A public child of the restricted module. -/
def pubChild : ItemNode :=
  { id := "0:4", name := "Leaked", visibility := .Public, inner := .Leaf,
    docs := "", kind := .Struct, parent := some (.ModuleItem "0:3"),
    imported_by := [] }

/-! Helper lemmas. -/

theorem splitColons_ne_nil (l : List Char) : splitColons l ≠ [] := by
  induction l using splitColons.induct with
  | case1 => simp [splitColons]
  | case2 rest ih => simp [splitColons]
  | case3 c rest h hnil ih => exact absurd hnil ih
  | case4 c rest h s ss hcons ih =>
    rw [splitColons]
    · rw [hcons]; simp
    · exact h

theorem pathSegments_ne_nil (p : String) : pathSegments p ≠ [] := by
  intro h
  exact splitColons_ne_nil p.toList (by simpa [pathSegments] using h)

theorem concat_map_slash (s : String) (rest : List String) :
    concatAll ((s :: rest).map (fun p => p ++ "/")) = joinSlash (s :: rest) ++ "/" := by
  induction rest generalizing s with
  | nil => simp [concatAll, joinSlash, String.append_empty]
  | cons t ts ih =>
    show (s ++ "/") ++ concatAll ((t :: ts).map (fun p => p ++ "/"))
      = (s ++ "/" ++ joinSlash (t :: ts)) ++ "/"
    rw [ih t, String.append_assoc (s ++ "/")]

theorem cyc_follow (fuel : Nat) :
    follow_import fuel [cycA, cycB] "A" = none ∧
    follow_import fuel [cycA, cycB] "B" = none := by
  induction fuel with
  | zero => exact ⟨rfl, rfl⟩
  | succ n ih =>
    constructor
    · show follow_import n [cycA, cycB] "B" = none
      exact ih.2
    · show follow_import n [cycA, cycB] "A" = none
      exact ih.1

theorem gp_restricted (fuel : Nat) (nodes : List ItemNode) (node : ItemNode)
    (b : Bool) (cache : PathCache)
    (hvis : node.visibility = .Restricted)
    (hcache : cacheGet cache node.id = none) :
    generate_path (fuel + 1) nodes node b cache =
      some ([], cacheInsert cache node.name []) := by
  cases b <;> simp [generate_path, hcache, hvis, cacheInsert]

theorem charCmp_lt_iff (a b : Char) : charCmp a b = .lt ↔ a.toNat < b.toNat := by
  unfold charCmp
  split_ifs <;> simp_all

theorem charCmp_gt_iff (a b : Char) : charCmp a b = .gt ↔ b.toNat < a.toNat := by
  unfold charCmp
  split_ifs <;> simp_all
  omega

theorem charCmp_eq_iff (a b : Char) : charCmp a b = .eq ↔ a = b := by
  unfold charCmp
  split_ifs with h1 h2
  · simp only [reduceCtorEq, false_iff]
    intro h
    subst h
    omega
  · simp only [reduceCtorEq, false_iff]
    intro h
    subst h
    omega
  · simp only [true_iff]
    have h3 : Char.toNat a = Char.toNat b := by omega
    exact Char.eq_of_val_eq (UInt32.ext h3)

theorem charCmp_swap (a b : Char) : charCmp a b = (charCmp b a).swap := by
  rcases Nat.lt_trichotomy a.toNat b.toNat with h | h | h
  · rw [(charCmp_lt_iff a b).mpr h, (charCmp_gt_iff b a).mpr h]
    rfl
  · have he : a = b := Char.eq_of_val_eq (UInt32.ext h)
    subst he
    rw [(charCmp_eq_iff a a).mpr rfl]
    rfl
  · rw [(charCmp_gt_iff a b).mpr h, (charCmp_lt_iff b a).mpr h]
    rfl

theorem charCmp_lt_trans {a b c : Char} (h1 : charCmp a b = .lt)
    (h2 : charCmp b c = .lt) : charCmp a c = .lt := by
  rw [charCmp_lt_iff] at *
  omega

theorem clc_eq_iff (a : List Char) : ∀ b, charListCmp a b = .eq ↔ a = b := by
  induction a with
  | nil => intro b; cases b <;> simp [charListCmp]
  | cons x xs ih =>
    intro b
    cases b with
    | nil => simp [charListCmp]
    | cons y ys =>
      rw [charListCmp]
      rcases h : charCmp x y with _ | _ | _
      · have hne : x ≠ y := fun he => by simp [he, (charCmp_eq_iff y y).mpr rfl] at h
        simp [hne]
      · rw [(charCmp_eq_iff x y).mp h]
        simp [ih ys]
      · have hne : x ≠ y := fun he => by simp [he, (charCmp_eq_iff y y).mpr rfl] at h
        simp [hne]

theorem clc_swap (a : List Char) : ∀ b, charListCmp a b = (charListCmp b a).swap := by
  induction a with
  | nil => intro b; cases b <;> simp [charListCmp, Ordering.swap]
  | cons x xs ih =>
    intro b
    cases b with
    | nil => simp [charListCmp, Ordering.swap]
    | cons y ys =>
      rw [charListCmp, charListCmp, charCmp_swap y x]
      rcases charCmp x y with _ | _ | _ <;> simp [Ordering.swap, ih ys]

theorem clc_lt_trans {a : List Char} : ∀ {b c : List Char},
    charListCmp a b = .lt → charListCmp b c = .lt → charListCmp a c = .lt := by
  induction a with
  | nil =>
    intro b c h1 h2
    cases b with
    | nil => exact h2
    | cons y ys =>
      cases c with
      | nil => simp [charListCmp] at h2
      | cons z zs => simp [charListCmp]
  | cons x xs ih =>
    intro b c h1 h2
    cases b with
    | nil => simp [charListCmp] at h1
    | cons y ys =>
      cases c with
      | nil => simp [charListCmp] at h2
      | cons z zs =>
        rw [charListCmp] at h1 h2 ⊢
        rcases hxy : charCmp x y with _ | _ | _ <;> rw [hxy] at h1
        · rcases hyz : charCmp y z with _ | _ | _ <;> rw [hyz] at h2
          · rw [charCmp_lt_trans hxy hyz]
          · rw [(charCmp_eq_iff y z).mp hyz] at hxy
            rw [hxy]
          · exact absurd h2 (by simp)
        · rcases hyz : charCmp y z with _ | _ | _ <;> rw [hyz] at h2
          · rw [(charCmp_eq_iff x y).mp hxy, hyz]
          · rw [(charCmp_eq_iff x y).mp hxy, hyz]
            exact ih h1 h2
          · exact absurd h2 (by simp)
        · exact absurd h1 (by simp)

theorem strCmp_eq_iff (a b : String) : strCmp a b = .eq ↔ a = b := by
  unfold strCmp
  rw [clc_eq_iff]
  constructor
  · intro h
    exact congrArg String.mk h
  · intro h
    rw [h]

theorem strCmp_swap (a b : String) : strCmp a b = (strCmp b a).swap :=
  clc_swap a.toList b.toList

theorem strCmp_lt_trans {a b c : String} (h1 : strCmp a b = .lt)
    (h2 : strCmp b c = .lt) : strCmp a c = .lt :=
  clc_lt_trans h1 h2

theorem strCmp_antisymm {a b : String} (h1 : strCmp a b ≠ .gt)
    (h2 : strCmp b a ≠ .gt) : a = b := by
  rcases h : strCmp a b with _ | _ | _
  · have hs := strCmp_swap b a
    rw [h] at hs
    exact absurd hs h2
  · exact (strCmp_eq_iff a b).mp h
  · exact absurd h h1

theorem strCmp_le_trans {a b c : String} (h1 : strCmp a b ≠ .gt)
    (h2 : strCmp b c ≠ .gt) : strCmp a c ≠ .gt := by
  rcases hab : strCmp a b with _ | _ | _
  · rcases hbc : strCmp b c with _ | _ | _
    · rw [strCmp_lt_trans hab hbc]
      simp
    · rw [← (strCmp_eq_iff b c).mp hbc, hab]
      simp
    · exact absurd hbc h2
  · rw [(strCmp_eq_iff a b).mp hab]
    exact h2
  · exact absurd hab h1

theorem opt_eq_iff (a b : Option String) : optStrCmp a b = .eq ↔ a = b := by
  cases a <;> cases b <;> simp [optStrCmp, strCmp_eq_iff]

theorem opt_swap (a b : Option String) : optStrCmp a b = (optStrCmp b a).swap := by
  cases a <;> cases b
  · rfl
  · rfl
  · rfl
  · exact strCmp_swap _ _

theorem opt_le_trans {a b c : Option String} (h1 : optStrCmp a b ≠ .gt)
    (h2 : optStrCmp b c ≠ .gt) : optStrCmp a c ≠ .gt := by
  cases a <;> cases b <;> cases c <;> simp_all [optStrCmp]
  exact strCmp_le_trans h1 h2

theorem then_swap (o p : Ordering) : (o.then p).swap = o.swap.then p.swap := by
  cases o <;> rfl

theorem then_eq_eq (o p : Ordering) : o.then p = .eq ↔ o = .eq ∧ p = .eq := by
  cases o <;> simp [Ordering.then]

theorem cmp_swap (a b : DocItem) : DocItem.cmp a b = (DocItem.cmp b a).swap := by
  unfold DocItem.cmp
  rw [then_swap, then_swap, ← strCmp_swap, ← strCmp_swap, ← opt_swap]

theorem cmp_le_trans {a b c : DocItem} (h1 : DocItem.cmp a b ≠ .gt)
    (h2 : DocItem.cmp b c ≠ .gt) : DocItem.cmp a c ≠ .gt := by
  unfold DocItem.cmp at *
  rcases hk1 : strCmp a.index_key b.index_key with _ | _ | _ <;> rw [hk1] at h1
  · rcases hk2 : strCmp b.index_key c.index_key with _ | _ | _ <;> rw [hk2] at h2
    · rw [strCmp_lt_trans hk1 hk2]
      simp [Ordering.then]
    · rw [← (strCmp_eq_iff _ _).mp hk2, hk1]
      simp [Ordering.then]
    · simp [Ordering.then] at h2
  · rw [(strCmp_eq_iff _ _).mp hk1]
    rcases hk2 : strCmp b.index_key c.index_key with _ | _ | _ <;> rw [hk2] at h2
    · simp [Ordering.then]
    · simp only [Ordering.then] at h1 h2 ⊢
      rcases hp1 : strCmp a.path b.path with _ | _ | _ <;> rw [hp1] at h1
      · rcases hp2 : strCmp b.path c.path with _ | _ | _ <;> rw [hp2] at h2
        · rw [strCmp_lt_trans hp1 hp2]
          simp [Ordering.then]
        · rw [← (strCmp_eq_iff _ _).mp hp2, hp1]
          simp [Ordering.then]
        · simp [Ordering.then] at h2
      · rw [(strCmp_eq_iff _ _).mp hp1]
        rcases hp2 : strCmp b.path c.path with _ | _ | _ <;> rw [hp2] at h2
        · simp [Ordering.then]
        · simp only [Ordering.then] at h1 h2 ⊢
          exact opt_le_trans h1 h2
        · simp [Ordering.then] at h2
      · simp [Ordering.then] at h1
    · simp [Ordering.then] at h2
  · simp [Ordering.then] at h1

/-! The claims. -/

/-- C2 counterexample: for the module entry mVec the code's locator is
"std/vec/index.html", while the claim's format with a kind-dotted module
segment gives "std/module.vec/index.html"; the two differ. -/
theorem C2_module_locator_cx :
    DocItem.fmt_url mVec = "std/vec/index.html" ∧
    DocItem.fmt_url_spec mVec = "std/module.vec/index.html" ∧
    DocItem.fmt_url mVec ≠ DocItem.fmt_url_spec mVec := by decide

/-- C2, amended: for every entry the locator is the path segments joined
by slashes followed by the anchor tail, where a module entry's tail is
the bare name followed by "/index.html" (no kind prefix), and the other
three anchor forms are as the claim states them. -/
theorem C2_locator_amended (d : DocItem) : d.fmt_url = d.fmt_url_amended := by
  obtain ⟨s, rest, hsr⟩ := List.exists_cons_of_ne_nil (pathSegments_ne_nil d.path)
  unfold DocItem.fmt_url DocItem.fmt_url_amended DocItem.amendedSuffix
  rw [hsr, concat_map_slash, String.append_assoc]

/-- C3: on an input whose import targets form a cycle, the chain-follow
of the parser never reaches a terminal, whatever bound is allowed on the
number of hops: the code's loop, which has no visited set, diverges where
the claim requires termination with the node treated as unresolved. -/
theorem C3_cycle_diverges (fuel : Nat) :
    follow_import fuel [cycA, cycB] "A" = none :=
  (cyc_follow fuel).1

/-- C4: a restricted node's generate_path returns the empty path list;
a restricted owner contributes no associated-item entries; the assembly
filter drops restricted nodes; and a child whose only parent link goes
through a restricted module, with no re-exports, receives no paths, so
no entry carries a path through the restricted node. No arm reports an
error: each returns an empty collection. -/
theorem C4_visibility_pruning :
    (∀ (fuel : Nat) (nodes : List ItemNode) (node : ItemNode) (b : Bool)
      (cache : PathCache),
      node.visibility = .Restricted → cacheGet cache node.id = none →
      generate_path (fuel + 1) nodes node b cache =
        some ([], cacheInsert cache node.name [])) ∧
    (∀ (fuel : Nat) (nodes : List ItemNode) (owner : ItemNode) (name : TypeItem)
      (desc : String) (tpKind : DocItemKind) (glt : TypeItem → LinkType)
      (cache : PathCache),
      owner.visibility = .Restricted → cacheGet cache owner.id = none →
      ownerEntries (fuel + 1) nodes owner name desc tpKind glt cache =
        some ([], cacheInsert cache owner.name [])) ∧
    (∀ (nodes : List ItemNode) (node : ItemNode),
      node.visibility = .Restricted → node ∉ assemblyNodes nodes) ∧
    (∀ (fuel : Nat) (nodes : List ItemNode) (child par : ItemNode) (pid : String)
      (b : Bool) (cache : PathCache),
      child.visibility = .Public → child.parent = some (.ModuleItem pid) →
      getNode nodes pid = some par → par.visibility = .Restricted →
      child.imported_by = [] →
      cacheGet cache child.id = none → cacheGet cache par.id = none →
      generate_path (fuel + 1 + 1) nodes child b cache =
        some ([], if b then cacheInsert cache par.name []
          else cacheInsert (cacheInsert cache par.name []) child.id [])) := by
  refine ⟨fun fuel nodes node b cache hvis hcache =>
      gp_restricted fuel nodes node b cache hvis hcache, ?_, ?_, ?_⟩
  · intro fuel nodes owner name desc tpKind glt cache hvis hcache
    unfold ownerEntries
    rw [gp_restricted fuel nodes owner true cache hvis hcache]
    simp
  · intro nodes node hvis hmem
    unfold assemblyNodes at hmem
    simp [List.mem_filter, hvis] at hmem
  · intro fuel nodes child par pid b cache hvis hparent hget hvisp himp hc hcp
    cases b <;>
      simp [generate_path, hc, hcp, hparent, hget, hvis, hvisp, himp, cacheInsert]

/-- C4 witness: the four arms evaluated at concrete nodes. -/
theorem C4_visibility_pruning_witness :
    generate_path 1 [rNode] rNode false [] = some ([], [("hidden", [])]) ∧
    ownerEntries 1 [rNode] rNode ⟨.Struct, "S"⟩ "" .Struct
      (fun t => LinkType.AssociateItem t) [] = some ([], [("hidden", [])]) ∧
    rNode ∉ assemblyNodes [rNode, cycA] ∧
    generate_path 2 [restrictedMod, pubChild] pubChild false []
      = some ([], [("0:4", []), ("inner_mod", [])]) := by
  refine ⟨C4_visibility_pruning.1 0 [rNode] rNode false [] (by decide) (by decide),
    C4_visibility_pruning.2.1 0 [rNode] rNode ⟨.Struct, "S"⟩ "" .Struct _ []
      (by decide) (by decide),
    C4_visibility_pruning.2.2.1 [rNode, cycA] rNode (by decide),
    ?_⟩
  have h := C4_visibility_pruning.2.2.2 0 [restrictedMod, pubChild] pubChild
    restrictedMod "0:3" false [] (by decide) (by decide) (by decide) (by decide)
    (by decide) (by decide) (by decide)
  simpa [cacheInsert] using h

/-- C6: on the restricted node rNode (id "0:1", name "hidden") a call
with omit_self = true writes a cache record, and the record's key is the
node's name, not its id: the id-keyed lookup cannot see it. The claim
says omit_self = true never writes and every record is keyed by id. -/
theorem C6_cache_key_bug :
    generate_path 5 [rNode] rNode true [] = some ([], [("hidden", [])]) ∧
    rNode.name ≠ rNode.id ∧
    cacheGet [("hidden", [])] rNode.id = none := by decide

/-- C7: building from more than 2^32 - 1 entries fails (the assert
aborts, modelled as none), and for offsets below 2^32 the packed value
(start << 32) + end unpacks by shift and mask to exactly start and
end. -/
theorem C7_capacity_packing :
    (∀ items : List DocItem, items.length > 2 ^ 32 - 1 → RustDoc.build items = none) ∧
    (∀ s e : Nat, s < 2 ^ 32 → e < 2 ^ 32 →
      unpackStart (packRange s e) = s ∧ unpackEnd (packRange s e) = e) := by
  constructor
  · intro items h
    unfold RustDoc.build
    rw [if_neg]
    omega
  · intro s e hs he
    unfold unpackStart unpackEnd packRange
    omega

/-- C7 witness: a list of 2^32 entries aborts the build, and the packed
pair (1, 2) unpacks to (1, 2). -/
theorem C7_capacity_packing_witness :
    RustDoc.build (List.replicate (2 ^ 32) mVec) = none ∧
    unpackStart (packRange 1 2) = 1 ∧ unpackEnd (packRange 1 2) = 2 :=
  ⟨C7_capacity_packing.1 _ (by rw [List.length_replicate]; omega),
   (C7_capacity_packing.2 1 2 (by norm_num) (by norm_num)).1,
   (C7_capacity_packing.2 1 2 (by norm_num) (by norm_num)).2⟩

/-- C8: a missing chain target is a silent skip: when the target id is
absent the chain-follow yields the skip outcome (some none); a hop
through a present import defers to the rest of the chain, so a missing
id at any hop propagates the same way; and the back-reference step for a
skipped import leaves the list unchanged. No arm is an error. -/
theorem C8_missing_import_skip :
    (∀ (nodes : List ItemNode) (i : String) (fuel : Nat),
      getNode nodes i = none → follow_import (fuel + 1) nodes i = some none) ∧
    (∀ (nodes : List ItemNode) (i : String) (fuel : Nat) (importee : ItemNode)
      (al nid : String) (g : Bool),
      getNode nodes i = some importee →
      importee.inner = .Import al (some nid) g →
      follow_import (fuel + 1) nodes i = follow_import fuel nodes nid) ∧
    (∀ (fuel : Nat) (nodes : List ItemNode) (prs : List (String × String))
      (node : ItemNode) (al nid : String) (g : Bool),
      node.inner = .Import al (some nid) g →
      follow_import fuel nodes nid = some none →
      resolveStep fuel nodes (some prs) node = some prs) := by
  refine ⟨?_, ?_, ?_⟩
  · intro nodes i fuel h
    unfold follow_import
    rw [h]
  · intro nodes i fuel importee al nid g h1 h2
    rw [follow_import, h1]
    simp only [h2]
  · intro fuel nodes prs node al nid g h1 h2
    simp only [resolveStep, h1, h2]

/-- C8 witness: the import node impMiss targets the absent id "X": the
chain-follow skips and the back-reference step appends nothing. -/
theorem C8_missing_import_skip_witness :
    follow_import 1 [impMiss] "X" = some none ∧
    resolveStep 1 [impMiss] (some []) impMiss = some [] := by
  refine ⟨C8_missing_import_skip.1 [impMiss] "X" 0 (by decide),
    C8_missing_import_skip.2.2 1 [impMiss] [] impMiss "re" "X" false
      (by decide) ?_⟩
  exact C8_missing_import_skip.1 [impMiss] "X" 0 (by decide)

/-- C9: a module named "prelude" stamps no ModuleItem parent on its
children, and a node with no parent link, no re-exports and public
visibility generates no paths at all, so a child reachable only through
a prelude module receives no dotted path through it. -/
theorem C9_prelude :
    (∀ (nodes : List ItemNode) (node : ItemNode) (items : List String),
      node.inner = .Module items → node.name = "prelude" →
      moduleChildAssignments nodes node = []) ∧
    (∀ (fuel : Nat) (nodes : List ItemNode) (child : ItemNode) (b : Bool)
      (cache : PathCache),
      child.parent = none → child.imported_by = [] →
      child.visibility = .Public → cacheGet cache child.id = none →
      generate_path (fuel + 1) nodes child b cache =
        some ([], if b then cache else cacheInsert cache child.id [])) := by
  constructor
  · intro nodes node items hinner hname
    unfold moduleChildAssignments
    rw [hinner]
    simp [hname]
  · intro fuel nodes child b cache hpar himp hvis hcache
    cases b <;>
      simp [generate_path, hcache, hpar, himp, hvis, cacheInsert]

/-- C9 witness: preludeMod assigns nothing and its child orphanChild
gets no paths. -/
theorem C9_prelude_witness :
    moduleChildAssignments [preludeMod, orphanChild] preludeMod = [] ∧
    generate_path 3 [preludeMod, orphanChild] orphanChild true [] = some ([], []) := by
  constructor
  · exact C9_prelude.1 _ _ ["0:2"] (by decide) (by decide)
  · have h := C9_prelude.2 2 [preludeMod, orphanChild] orphanChild true []
      (by decide) (by decide) (by decide) (by decide)
    simpa using h

/-- C5: DocItem::cmp is lexicographic with the search-key bytes primary
(a strictly smaller key decides), the path secondary, and the anchor's
owning-page name tertiary, where an absent owning page sorts before any
present one and two present ones compare by name; the order is total
(comparison reverses under swapped arguments) and transitive, and Equal
holds exactly when all three components agree. -/
theorem C5_ordering :
    (∀ a b : DocItem, strCmp a.index_key b.index_key = .lt → DocItem.cmp a b = .lt) ∧
    (∀ a b : DocItem, a.index_key = b.index_key → strCmp a.path b.path = .lt →
      DocItem.cmp a b = .lt) ∧
    (∀ a b : DocItem, a.index_key = b.index_key → a.path = b.path →
      DocItem.cmp a b = optStrCmp a.parent_atom b.parent_atom) ∧
    (∀ s : String, optStrCmp none (some s) = .lt) ∧
    (∀ x y : String, optStrCmp (some x) (some y) = strCmp x y) ∧
    (∀ a b : DocItem, DocItem.cmp a b = (DocItem.cmp b a).swap) ∧
    (∀ a b c : DocItem, DocItem.cmp a b ≠ .gt → DocItem.cmp b c ≠ .gt →
      DocItem.cmp a c ≠ .gt) ∧
    (∀ a b : DocItem, DocItem.cmp a b = .eq ↔
      (a.index_key = b.index_key ∧ a.path = b.path ∧ a.parent_atom = b.parent_atom)) := by
  refine ⟨?_, ?_, ?_, fun s => rfl, fun x y => rfl, cmp_swap, @cmp_le_trans, ?_⟩
  · intro a b h
    unfold DocItem.cmp
    rw [h]
    rfl
  · intro a b hk hp
    unfold DocItem.cmp
    rw [(strCmp_eq_iff _ _).mpr hk, hp]
    rfl
  · intro a b hk hp
    unfold DocItem.cmp
    rw [(strCmp_eq_iff _ _).mpr hk, (strCmp_eq_iff _ _).mpr hp]
    rfl
  · intro a b
    unfold DocItem.cmp
    rw [then_eq_eq, then_eq_eq, strCmp_eq_iff, strCmp_eq_iff, opt_eq_iff]

/-- C5 witness: the component implications applied at concrete
entries. -/
theorem C5_ordering_witness :
    DocItem.cmp xIt mVec = .lt ∧
    DocItem.cmp xIt wIt = .lt ∧
    DocItem.cmp xIt yIt = optStrCmp xIt.parent_atom yIt.parent_atom ∧
    DocItem.cmp zIt yIt ≠ .gt ∧
    (DocItem.cmp xIt yIt = .eq ↔
      (xIt.index_key = yIt.index_key ∧ xIt.path = yIt.path ∧
        xIt.parent_atom = yIt.parent_atom)) :=
  ⟨C5_ordering.1 xIt mVec (by decide),
   C5_ordering.2.1 xIt wIt (by decide) (by decide),
   C5_ordering.2.2.1 xIt yIt (by decide) (by decide),
   C5_ordering.2.2.2.2.2.2.1 zIt xIt yIt (by decide) (by decide),
   C5_ordering.2.2.2.2.2.2.2 xIt yIt⟩

/-- C10: two entries with the same name string, path and owning-page
name but different kinds compare Equal under DocItem::cmp yet differ
under PartialEq, and the BTreeSet keeps only the first inserted of the
pair, in either insertion order. -/
theorem C10_cmp_coarser_than_eq :
    ∃ x y : DocItem, DocItem.cmp x y = .eq ∧ DocItem.rustEq x y = false ∧ x ≠ y ∧
      btreeInsert (btreeInsert [] x) y = [x] ∧ btreeInsert (btreeInsert [] y) x = [y] :=
  ⟨xIt, yIt, by decide, by decide, by decide, by decide, by decide⟩

/-! The index-builder invariant (claim C1) and its supporting lemmas. -/

theorem pack_unpack (s e : Nat) (hs : s < 2 ^ 32) (he : e < 2 ^ 32) :
    unpackStart (packRange s e) = s ∧ unpackEnd (packRange s e) = e := by
  unfold unpackStart unpackEnd packRange
  omega

theorem key_le_of_cmp_le {a b : DocItem} (h : DocItem.cmp a b ≠ .gt) :
    strCmp a.index_key b.index_key ≠ .gt := by
  intro hk
  apply h
  unfold DocItem.cmp
  rw [hk]
  rfl

theorem chunkGo_spec (items : List DocItem)
    (hkey : List.Pairwise (fun a b => strCmp a.index_key b.index_key ≠ .gt) items)
    (rest : List DocItem) :
    ∀ (key : String) (start i : Nat),
      rest = items.drop i → start < i → i ≤ items.length →
      (∀ j, start ≤ j → j < i → ∃ d, items[j]? = some d ∧ d.index_key = key) →
      (∀ j d, j < start → items[j]? = some d → d.index_key ≠ key) →
      ∀ k s e, (k, s, e) ∈ chunkGo key start i rest →
        e ≤ items.length ∧ s < e ∧
        ∀ n, (s ≤ n ∧ n < e) ↔ ∃ d, items[n]? = some d ∧ d.index_key = k := by
  have pw : ∀ (p q : Nat) (dp dq : DocItem), p < q → items[p]? = some dp →
      items[q]? = some dq → strCmp dp.index_key dq.index_key ≠ .gt := by
    intro p q dp dq hpq hp hq
    obtain ⟨hp1, hp2⟩ := List.getElem?_eq_some.mp hp
    obtain ⟨hq1, hq2⟩ := List.getElem?_eq_some.mp hq
    have hr := List.pairwise_iff_getElem.mp hkey p q hp1 hq1 hpq
    rwa [hp2, hq2] at hr
  induction rest with
  | nil =>
    intro key start i hdrop hsi hlen hrun hbefore k s e hmem
    have hie : items.length ≤ i := List.drop_eq_nil_iff.mp hdrop.symm
    rw [chunkGo] at hmem
    simp only [List.mem_singleton, Prod.mk.injEq] at hmem
    obtain ⟨hk, hs, he⟩ := hmem
    subst hk; subst hs; subst he
    refine ⟨by omega, hsi, ?_⟩
    intro n
    constructor
    · intro hn
      exact hrun n hn.1 hn.2
    · rintro ⟨d, hd, hdkey⟩
      have hn : n < items.length := (List.getElem?_eq_some.mp hd).1
      constructor
      · by_contra hlt
        push_neg at hlt
        exact hbefore n d hlt hd hdkey
      · omega
  | cons x xs ih =>
    intro key start i hdrop hsi hlen hrun hbefore k s e hmem
    have hx : items[i]? = some x := by
      have h0 : (items.drop i)[0]? = some x := by rw [← hdrop]; simp
      rw [List.getElem?_drop] at h0
      simpa using h0
    have hilen : i < items.length := (List.getElem?_eq_some.mp hx).1
    have hxs : xs = items.drop (i + 1) := by
      have h1 : (items.drop i).drop 1 = items.drop (i + 1) := by
        rw [List.drop_drop]
      rw [← hdrop] at h1
      exact h1.symm.symm
    rw [chunkGo] at hmem
    by_cases hxk : x.index_key = key
    · rw [if_pos hxk] at hmem
      refine ih key start (i + 1) hxs (by omega) (by omega) ?_ hbefore k s e hmem
      intro j hj1 hj2
      by_cases hji : j < i
      · exact hrun j hj1 hji
      · have hje : j = i := by omega
        subst hje
        exact ⟨x, hx, hxk⟩
    · rw [if_neg hxk] at hmem
      obtain ⟨d0, hd0, hd0key⟩ := hrun start le_rfl hsi
      have hkx : strCmp key x.index_key ≠ .gt := by
        have h1 := pw start i d0 x hsi hd0 hx
        rwa [hd0key] at h1
      rcases List.mem_cons.mp hmem with hhead | htail
      · simp only [Prod.mk.injEq] at hhead
        obtain ⟨hk, hs, he⟩ := hhead
        subst hk; subst hs; subst he
        refine ⟨hilen.le, hsi, ?_⟩
        intro n
        constructor
        · intro hn
          exact hrun n hn.1 hn.2
        · rintro ⟨d, hd, hdkey⟩
          have hn : n < items.length := (List.getElem?_eq_some.mp hd).1
          constructor
          · by_contra hlt
            push_neg at hlt
            exact hbefore n d hlt hd hdkey
          · by_contra hge
            push_neg at hge
            rcases Nat.eq_or_lt_of_le hge with heq | hlt
            · rw [heq] at hx
              have hdx : x = d := Option.some.inj (hx.symm.trans hd)
              rw [← hdx] at hdkey
              exact hxk hdkey
            · have h1 := pw _ n x d hlt hx hd
              rw [hdkey] at h1
              exact hxk (strCmp_antisymm h1 hkx)
      · refine ih x.index_key i (i + 1) hxs (by omega) (by omega) ?_ ?_ k s e htail
        · intro j hj1 hj2
          have hje : j = i := by omega
          subst hje
          exact ⟨x, hx, rfl⟩
        · intro j d hj hd hdx
          by_cases hjs : j < start
          · have h1 := pw j start d d0 hjs hd hd0
            rw [hdx, hd0key] at h1
            exact hxk (strCmp_antisymm h1 hkx)
          · push_neg at hjs
            obtain ⟨d', hd', hd'key⟩ := hrun j hjs (by omega)
            have hdd : d = d' := Option.some.inj (hd.symm.trans hd')
            rw [hdd, hd'key] at hdx
            exact hxk hdx.symm

theorem buildRanges_spec (items : List DocItem)
    (hkey : List.Pairwise (fun a b => strCmp a.index_key b.index_key ≠ .gt) items) :
    ∀ k s e, (k, s, e) ∈ buildRanges items →
      e ≤ items.length ∧ s < e ∧
      ∀ n, (s ≤ n ∧ n < e) ↔ ∃ d, items[n]? = some d ∧ d.index_key = k := by
  cases items with
  | nil =>
    intro k s e h
    simp [buildRanges] at h
  | cons x xs =>
    intro k s e h
    rw [buildRanges] at h
    refine chunkGo_spec (x :: xs) hkey xs x.index_key 0 1 (by simp) (by omega)
      (by simp) ?_ ?_ k s e h
    · intro j hj1 hj2
      have hj : j = 0 := by omega
      subst hj
      exact ⟨x, by simp, rfl⟩
    · intro j d hj hd
      exact absurd hj (by omega)

/-- C1: from a list sorted by the entry comparison, a successful build
returns the list itself as the backing array, and every key of the index
map carries a packed value whose decoded half-open range [start, end)
lies within the array, is nonempty, and contains exactly the positions
whose entry has that search key: every entry inside the slice has the
key, and no entry with the key lies outside it. -/
theorem C1_index_ranges (items : List DocItem) (arr : List DocItem)
    (idx : List (String × Nat))
    (hsort : List.Pairwise (fun a b => DocItem.cmp a b ≠ .gt) items)
    (hbuild : RustDoc.build items = some (arr, idx)) :
    arr = items ∧
    ∀ k v, (k, v) ∈ idx →
      unpackEnd v ≤ arr.length ∧ unpackStart v < unpackEnd v ∧
      ∀ n, (unpackStart v ≤ n ∧ n < unpackEnd v) ↔
        ∃ d, arr[n]? = some d ∧ d.index_key = k := by
  unfold RustDoc.build at hbuild
  by_cases hlen : items.length ≤ 2 ^ 32 - 1
  · rw [if_pos hlen] at hbuild
    have h2 := Option.some.inj hbuild
    have harr : items = arr := congrArg Prod.fst h2
    have hidx : buildIndex items = idx := congrArg Prod.snd h2
    subst harr
    refine ⟨rfl, ?_⟩
    intro k v hkv
    rw [← hidx] at hkv
    unfold buildIndex at hkv
    obtain ⟨⟨k', s, e⟩, hmem, heq⟩ := List.mem_map.mp hkv
    simp only [Prod.mk.injEq] at heq
    obtain ⟨hk', hv⟩ := heq
    subst hk'
    subst hv
    have hkey : List.Pairwise
        (fun a b => strCmp a.index_key b.index_key ≠ .gt) items :=
      hsort.imp (fun h => key_le_of_cmp_le h)
    obtain ⟨he, hse, hiff⟩ := buildRanges_spec items hkey _ s e hmem
    obtain ⟨hus, hue⟩ := pack_unpack s e (by omega) (by omega)
    rw [hus, hue]
    exact ⟨he, hse, hiff⟩
  · rw [if_neg hlen] at hbuild
    exact absurd hbuild (by simp)

/-- C1 witness: the theorem applied to the sorted two-entry list
[zIt, xIt], whose index holds the ranges [0, 1) for "Vec" and [1, 2) for
"dedup". -/
theorem C1_index_ranges_witness :
    [zIt, xIt] = [zIt, xIt] ∧
    ∀ k v, (k, v) ∈ buildIndex [zIt, xIt] →
      unpackEnd v ≤ ([zIt, xIt] : List DocItem).length ∧
      unpackStart v < unpackEnd v ∧
      ∀ n, (unpackStart v ≤ n ∧ n < unpackEnd v) ↔
        ∃ d, ([zIt, xIt] : List DocItem)[n]? = some d ∧ d.index_key = k :=
  C1_index_ranges [zIt, xIt] [zIt, xIt] (buildIndex [zIt, xIt]) (by decide) (by decide)

end RustdocSeeker
